import Mathlib

/-!
Verification of the frame-pacing / GPU-resource-coordination core of the
repository against its natural-language specification.

The development shallowly embeds four Rust modules:

* `src/wezterm-gui/src/bufferpool.rs`        — `VertexBufferPool`
* `src/window/src/os/wayland/triplebuffer.rs` — `TripleBufferManager`
* `src/window/src/os/wayland/gpufence.rs`     — `GpuFenceManager`
* `src/window/src/os/wayland/presentation.rs` — `PresentationFeedback` /
  `PresentationManager`

Modelling conventions:

* `usize`/`u64` values are `Nat`; wherever the Rust code can overflow or
  truncate (`as u32` casts, `next_power_of_two`), the embedding applies the
  explicit `% 2 ^ w` reduction, following the documented release-profile
  behaviour of those primitives (wrapping, not panicking).
* `Instant` and `Duration` are nanosecond counts (`Nat`).  `Instant::
  duration_since` saturates at zero, which `Nat` subtraction models exactly.
  The single floating-point computation (the `Duration::mul_f64` exponential
  moving average) is modelled with exact rational arithmetic over `ℚ`.
* A Rust panic is modelled by `Option.none` / a fallible operation by
  `Except`.  External collaborators (the EGL sync object, the GPU wait
  outcome, the allocator) enter as explicit oracle arguments.
* Fields used only for rate-limited logging (`last_stats_log`,
  `last_starvation_warning`, `last_timeout_log`) carry no behaviour visible
  to the specification claims and are omitted from the states.
-/

/-! ## List helpers (embeddings of the `Vec` primitives used by the code) -/

/-- Embedding of `Iterator::position`: index of the first element
satisfying the predicate. -/
def findFirstIdx (p : α → Bool) : List α → Option Nat
  | [] => none
  | x :: xs => if p x then some 0 else (findFirstIdx p xs).map (· + 1)

/-- Embedding of `Vec::swap_remove`: the element at `pos` is replaced by the
last element, then the last slot is dropped. -/
def swapRemove (l : List (Nat × Nat)) (pos : Nat) : List (Nat × Nat) :=
  (l.set pos (l.getLastD (0, 0))).dropLast

/-- Embedding of `Vec::insert` at an index (the code only calls it with an
index that is at most the length; past the end this model appends). -/
def insertAt : Nat → α → List α → List α
  | 0, a, l => a :: l
  | _ + 1, a, [] => [a]
  | n + 1, a, x :: xs => x :: insertAt n a xs

/-- Embedding of the binary search performed by `slice::partition_point`:
`lo`/`hi` bisection that narrows onto the boundary of the predicate. -/
def ppLoop (l : List (Nat × Nat)) (pred : Nat × Nat → Bool) (lo hi : Nat) : Nat :=
  if h : lo < hi then
    if pred (l.getD ((lo + hi) / 2) (0, 0)) then
      ppLoop l pred ((lo + hi) / 2 + 1) hi
    else
      ppLoop l pred lo ((lo + hi) / 2)
  else lo
termination_by hi - lo
decreasing_by
  · have h1 : lo ≤ (lo + hi) / 2 := by
      rw [Nat.le_div_iff_mul_le (by omega)]; omega
    have h2 : (lo + hi) / 2 < hi := by
      rw [Nat.div_lt_iff_lt_mul (by omega)]; omega
    omega
  · have h1 : lo ≤ (lo + hi) / 2 := by
      rw [Nat.le_div_iff_mul_le (by omega)]; omega
    have h2 : (lo + hi) / 2 < hi := by
      rw [Nat.div_lt_iff_lt_mul (by omega)]; omega
    omega

/-- `slice::partition_point` over the whole slice. -/
def partitionPoint (l : List (Nat × Nat)) (pred : Nat × Nat → Bool) : Nat :=
  ppLoop l pred 0 l.length

/-! ## `VertexBufferPool` (src/wezterm-gui/src/bufferpool.rs)

An entry is `(capacity, buffer)`; the GPU-side `VertexBuffer` itself is
opaque, modelled by a `Nat` handle.  The `RenderContext` only matters through
`allocate_vertex_buffer`, whose success/failure enters as the oracle argument
`allocOk`; a freshly allocated handle is modelled by the current allocation
counter. -/

structure VertexBufferPool where
  available : List (Nat × Nat)
  allocations : Nat
  reuses : Nat
deriving DecidableEq

namespace VertexBufferPool

/-- `VertexBufferPool::new` (the `RenderContext` clone carries no state the
spec claims mention). -/
def new : VertexBufferPool := { available := [], allocations := 0, reuses := 0 }

/-- Doubling loop computing the smallest power of two that is at least `n`,
with enough fuel for any 64-bit input (64 doublings starting from 1). -/
def nextPowTwoGo (n : Nat) : Nat → Nat → Nat
  | 0, power => power
  | fuel + 1, power => if n ≤ power then power else nextPowTwoGo n fuel (power * 2)

/-- Rust `usize::next_power_of_two` without overflow: the smallest power of
two that is at least `n` (`0` and `1` both map to `1`), computed for every
64-bit input by 64 doubling steps. -/
def nextPowTwo (n : Nat) : Nat := nextPowTwoGo n 64 1

/-- `usize::next_power_of_two` on 64-bit with the documented release-profile
behaviour: the value wraps modulo `2 ^ 64` (so inputs above `2 ^ 63` give
`0`). -/
def nextPowTwoU64 (n : Nat) : Nat := nextPowTwo n % 2 ^ 64

/-- `VertexBufferPool::acquire`.  A hit removes the first sufficient entry by
`swap_remove`; a miss allocates `max(next_power_of_two(min_quads), 32)`.
`allocOk` is the external allocator's verdict; its failure propagates as the
error. -/
def acquire (p : VertexBufferPool) (min_quads : Nat) (allocOk : Bool) :
    Except Unit (Nat × Nat) × VertexBufferPool :=
  match findFirstIdx (fun e => min_quads ≤ e.1) p.available with
  | some pos =>
      let entry := p.available.getD pos (0, 0)
      (Except.ok entry,
        { p with available := swapRemove p.available pos, reuses := p.reuses + 1 })
  | none =>
      let capacity := Nat.max (nextPowTwoU64 min_quads) 32
      if allocOk then
        (Except.ok (capacity, p.allocations),
          { p with allocations := p.allocations + 1 })
      else
        (Except.error (), p)

/-- `VertexBufferPool::release`: insert sorted by descending capacity at the
`partition_point` boundary, unless the pool already holds
`MAX_POOLED_BUFFERS = 8` entries, in which case the buffer is dropped. -/
def release (p : VertexBufferPool) (capacity buf : Nat) : VertexBufferPool :=
  if p.available.length < 8 then
    let pos := partitionPoint p.available (fun e => capacity ≤ e.1)
    { p with available := insertAt pos (capacity, buf) p.available }
  else p

/-- `VertexBufferPool::stats`: `(allocations, reuses, pooled count)`. -/
def stats (p : VertexBufferPool) : Nat × Nat × Nat :=
  (p.allocations, p.reuses, p.available.length)

/-- `VertexBufferPool::clear`. -/
def clear (p : VertexBufferPool) : VertexBufferPool :=
  { p with available := [] }

end VertexBufferPool

/-- The spec's pool invariant: entries sorted by descending capacity. -/
def descending (l : List (Nat × Nat)) : Prop :=
  List.Pairwise (fun a b : Nat × Nat => b.1 ≤ a.1) l

instance (l : List (Nat × Nat)) : Decidable (descending l) :=
  inferInstanceAs (Decidable (List.Pairwise _ l))

/-! ## `TripleBufferManager` (src/window/src/os/wayland/triplebuffer.rs)

The fixed array `[BufferMetadata; 3]` is embedded as three named fields;
`slots`/`getSlot` recover the indexed view the Rust loops use.  Every
operation that reads `Instant::now()` takes the current time `now`
(nanoseconds) as an explicit argument. -/

/-- One step of `Iterator::max_by_key`: the accumulator is replaced whenever
the new element's key is at least as large, so the *last* of several maxima
wins, as Rust documents. -/
def maxStep (key : α → Nat) (acc : Option α) (x : α) : Option α :=
  match acc with
  | none => some x
  | some y => if key y ≤ key x then some x else some y

/-- `Iterator::max_by_key`. -/
def maxByLast (key : α → Nat) (l : List α) : Option α :=
  l.foldl (maxStep key) none

inductive BufferState where
  | Available
  | Rendering
  | Queued
  | Displayed
deriving DecidableEq

structure BufferMetadata where
  id : Nat
  state : BufferState
  state_changed : Nat
  use_count : Nat
deriving DecidableEq

namespace BufferMetadata

/-- `BufferMetadata::new`. -/
def new (id now : Nat) : BufferMetadata :=
  { id := id, state := .Available, state_changed := now, use_count := 0 }

/-- `BufferMetadata::transition_to`. -/
def transitionTo (b : BufferMetadata) (s : BufferState) (now : Nat) : BufferMetadata :=
  { b with
    state := s
    state_changed := now
    use_count := if s = .Rendering then b.use_count + 1 else b.use_count }

/-- `BufferMetadata::time_in_state`; `Instant::duration_since` saturates at
zero, exactly as `Nat` subtraction does. -/
def timeInState (now : Nat) (b : BufferMetadata) : Nat := now - b.state_changed

end BufferMetadata

structure TripleBufferManager where
  buffer0 : BufferMetadata
  buffer1 : BufferMetadata
  buffer2 : BufferMetadata
  current_buffer : Nat
  total_frames : Nat
  buffer_starvation_count : Nat
deriving DecidableEq

namespace TripleBufferManager

/-- `TripleBufferManager::new`. -/
def new (now : Nat) : TripleBufferManager :=
  { buffer0 := .new 0 now, buffer1 := .new 1 now, buffer2 := .new 2 now
    current_buffer := 0, total_frames := 0, buffer_starvation_count := 0 }

/-- The `buffers` array as the list the Rust iterators traverse. -/
def slots (m : TripleBufferManager) : List BufferMetadata :=
  [m.buffer0, m.buffer1, m.buffer2]

/-- `self.buffers[i]` (all call sites guarantee `i < 3`). -/
def getSlot (m : TripleBufferManager) (i : Nat) : BufferMetadata :=
  if i = 0 then m.buffer0 else if i = 1 then m.buffer1 else m.buffer2

/-- Writing `self.buffers[i]` back. -/
def setSlot (m : TripleBufferManager) (i : Nat) (b : BufferMetadata) :
    TripleBufferManager :=
  if i = 0 then { m with buffer0 := b }
  else if i = 1 then { m with buffer1 := b }
  else { m with buffer2 := b }

/-- The `filter(Queued).max_by_key(time_in_state)` selection inside
`acquire_buffer`, returning the chosen slot index. -/
def oldestQueuedIdx (m : TripleBufferManager) (now : Nat) : Option Nat :=
  (maxByLast (fun p => BufferMetadata.timeInState now p.2)
      (([(0, m.buffer0), (1, m.buffer1), (2, m.buffer2)]).filter
        (fun p => p.2.state = BufferState.Queued))).map (·.1)

/-- `TripleBufferManager::acquire_buffer`: first Available slot wins;
otherwise the starvation counter is bumped and the longest-Queued slot is
forcibly reused; with no Queued slot either, the call yields `none`. -/
def acquire_buffer (m : TripleBufferManager) (now : Nat) :
    Option Nat × TripleBufferManager :=
  if m.buffer0.state = .Available then
    (some 0,
      { m with buffer0 := m.buffer0.transitionTo .Rendering now
               current_buffer := 0, total_frames := m.total_frames + 1 })
  else if m.buffer1.state = .Available then
    (some 1,
      { m with buffer1 := m.buffer1.transitionTo .Rendering now
               current_buffer := 1, total_frames := m.total_frames + 1 })
  else if m.buffer2.state = .Available then
    (some 2,
      { m with buffer2 := m.buffer2.transitionTo .Rendering now
               current_buffer := 2, total_frames := m.total_frames + 1 })
  else
    let m1 :=
      { m with buffer_starvation_count := m.buffer_starvation_count + 1 }
    match oldestQueuedIdx m1 now with
    | some i =>
        (some i,
          { m1.setSlot i ((m1.getSlot i).transitionTo .Rendering now) with
              current_buffer := i })
    | none => (none, m1)

/-- `TripleBufferManager::queue_current_buffer` (the warning on a
non-Rendering state is logging only). -/
def queue_current_buffer (m : TripleBufferManager) (now : Nat) :
    TripleBufferManager :=
  m.setSlot m.current_buffer
    ((m.getSlot m.current_buffer).transitionTo .Queued now)

/-- `TripleBufferManager::mark_displayed`: an id at least 3 is logged and
ignored. -/
def mark_displayed (m : TripleBufferManager) (buffer_id now : Nat) :
    TripleBufferManager :=
  if 3 ≤ buffer_id then m
  else m.setSlot buffer_id ((m.getSlot buffer_id).transitionTo .Displayed now)

/-- `TripleBufferManager::release_buffer`: an id at least 3 is logged and
ignored. -/
def release_buffer (m : TripleBufferManager) (buffer_id now : Nat) :
    TripleBufferManager :=
  if 3 ≤ buffer_id then m
  else m.setSlot buffer_id ((m.getSlot buffer_id).transitionTo .Available now)

end TripleBufferManager

/-! ## `GpuFenceManager` (src/window/src/os/wayland/gpufence.rs)

The EGL sync handle is opaque (`Nat`).  `GpuFence::create` talks to the
external EGL context, so the manager's `create_fence` takes the outcome as an
oracle: `some fence` when `CreateSync` returned a valid handle, `none` when
it returned `NO_SYNC`.  Likewise `wait_for_fence` takes the external
`ClientWaitSync` verdict (`signaled`) and the measured wait duration. -/

structure GpuFence where
  sync : Nat
  created_at : Nat
deriving DecidableEq

structure GpuFenceManager where
  pending_fence : Option GpuFence
  total_fences_created : Nat
  total_waits : Nat
  total_timeouts : Nat
  total_wait_time : Nat
  max_wait_time : Nat
deriving DecidableEq

namespace GpuFenceManager

/-- `GpuFenceManager::new`. -/
def new : GpuFenceManager :=
  { pending_fence := none, total_fences_created := 0, total_waits := 0
    total_timeouts := 0, total_wait_time := 0, max_wait_time := 0 }

/-- `GpuFenceManager::create_fence`: on success the new fence replaces any
pending one and the counter is bumped; on failure the error propagates and
the state is untouched. -/
def create_fence (m : GpuFenceManager) (res : Option GpuFence) :
    Except Unit Unit × GpuFenceManager :=
  match res with
  | some f =>
      (Except.ok (),
        { m with pending_fence := some f
                 total_fences_created := m.total_fences_created + 1 })
  | none => (Except.error (), m)

/-- `GpuFenceManager::wait_for_fence`: `Option::take` consumes the pending
fence (early-returning `none` when there is none), then the wait statistics
are updated from the externally observed outcome. -/
def wait_for_fence (m : GpuFenceManager) (signaled : Bool) (wait_time : Nat) :
    Option Bool × GpuFenceManager :=
  match m.pending_fence with
  | none => (none, m)
  | some _ =>
      let m1 :=
        { m with pending_fence := none
                 total_waits := m.total_waits + 1
                 total_wait_time := m.total_wait_time + wait_time
                 max_wait_time := Nat.max m.max_wait_time wait_time }
      let m2 :=
        if signaled then m1
        else { m1 with total_timeouts := m1.total_timeouts + 1 }
      (some signaled, m2)

end GpuFenceManager

/-! ## Presentation timing (src/window/src/os/wayland/presentation.rs)

Instants and `Duration`s are nanosecond counts.  `predict_next_vsync`
faithfully keeps the `u128` division (panicking on a zero refresh interval,
modelled by `none`), the `as u32` truncation of `intervals_passed`, the
`u32` wrap of `intervals_passed + 1`, and the `Duration * u32` overflow
panic against `Duration::MAX`.  The exponential moving average computed with
`Duration::mul_f64(0.9)` / `mul_f64(0.1)` is modelled with exact rational
coefficients `9/10` and `1/10`. -/

/-- `Duration::MAX` in nanoseconds: `u64::MAX` seconds plus `999_999_999`
nanoseconds. -/
def durMax : Nat := (2 ^ 64 - 1) * 10 ^ 9 + 999999999

structure PresentationFeedback where
  present_time : Nat
  refresh_interval : Nat
  flags : Nat
deriving DecidableEq

namespace PresentationFeedback

/-- `PresentationFeedback::predict_next_vsync`.  `none` models the panics:
division by a zero refresh interval, and overflow of
`refresh_interval * (intervals_passed + 1)` past `Duration::MAX`. -/
def predict_next_vsync (fb : PresentationFeedback) (now : Nat) : Option Nat :=
  let elapsed := now - fb.present_time
  if fb.refresh_interval = 0 then none
  else
    let intervals_passed := elapsed / fb.refresh_interval % 2 ^ 32
    let k := (intervals_passed + 1) % 2 ^ 32
    let d := fb.refresh_interval * k
    if durMax < d then none else some (fb.present_time + d)

/-- `PresentationFeedback::optimal_render_start`. -/
def optimal_render_start (fb : PresentationFeedback) (budget now : Nat) :
    Option Nat :=
  (fb.predict_next_vsync now).map
    (fun v => if now + budget < v then v - budget else v)

end PresentationFeedback

structure PresentationManager where
  last_feedback : Option PresentationFeedback
  estimated_refresh_interval : ℚ
  total_feedbacks : Nat
  vsync_hits : Nat
  zero_copy_frames : Nat
deriving DecidableEq

namespace PresentationManager

/-- `PresentationManager::new`: `1_000_000_000 / default_refresh_hz` with
integer division; a zero rate would divide by zero (`none`). -/
def new (default_refresh_hz : Nat) : Option PresentationManager :=
  if default_refresh_hz = 0 then none
  else
    some
      { last_feedback := none
        estimated_refresh_interval := ((10 ^ 9 / default_refresh_hz : Nat) : ℚ)
        total_feedbacks := 0, vsync_hits := 0, zero_copy_frames := 0 }

/-- `PresentationManager::record_feedback`.  `VSYNC = 0x1` is bit 0 and
`ZERO_COPY = 0x8` is bit 3 of the flag word; the refresh-interval estimate
is updated only when a previous feedback exists, with the saturating
`duration_since` of the two presentation instants. -/
def record_feedback (m : PresentationManager) (fb : PresentationFeedback) :
    PresentationManager :=
  let m1 := { m with total_feedbacks := m.total_feedbacks + 1 }
  let m2 :=
    if fb.flags.testBit 0 then { m1 with vsync_hits := m1.vsync_hits + 1 } else m1
  let m3 :=
    if fb.flags.testBit 3 then
      { m2 with zero_copy_frames := m2.zero_copy_frames + 1 }
    else m2
  let m4 :=
    match m3.last_feedback with
    | some last =>
        let interval : Nat := fb.present_time - last.present_time
        { m3 with
            estimated_refresh_interval :=
              (9 / 10 : ℚ) * m3.estimated_refresh_interval +
                (1 / 10 : ℚ) * (interval : ℚ) }
    | none => m3
  { m4 with last_feedback := some fb }

/-- `PresentationManager::predict_next_vsync`: feedback-based prediction if
available, else `now + estimated_refresh_interval`. -/
def predict_next_vsync (m : PresentationManager) (now : Nat) : Option ℚ :=
  match m.last_feedback with
  | some fb => (fb.predict_next_vsync now).map (fun v => (v : ℚ))
  | none => some ((now : ℚ) + m.estimated_refresh_interval)

/-- `PresentationManager::optimal_render_start`: with no feedback, start
immediately (`now`). -/
def optimal_render_start (m : PresentationManager) (budget now : Nat) :
    Option ℚ :=
  match m.last_feedback with
  | some fb => (fb.optimal_render_start budget now).map (fun v => (v : ℚ))
  | none => some (now : ℚ)

/-- `PresentationManager::should_render_now`:
`Instant::now() >= optimal_render_start(budget)`. -/
def should_render_now (m : PresentationManager) (budget now : Nat) :
    Option Bool :=
  (m.optimal_render_start budget now).map (fun t => decide (t ≤ (now : ℚ)))

end PresentationManager

/-! ## Reachable pool states

The pool states reachable through the public operations, used for the
"for every reachable pool state" part of the pool-cap claim. -/

inductive PoolReach : VertexBufferPool → Prop
  | new : PoolReach VertexBufferPool.new
  | acquire (p : VertexBufferPool) (mq : Nat) (ok : Bool) :
      PoolReach p → PoolReach (p.acquire mq ok).2
  | release (p : VertexBufferPool) (c b : Nat) :
      PoolReach p → PoolReach (p.release c b)
  | clear (p : VertexBufferPool) : PoolReach p → PoolReach p.clear

/-! ## General-purpose lemmas -/

theorem findFirstIdx_some {p : α → Bool} {d : α} :
    ∀ {l : List α} {i : Nat}, findFirstIdx p l = some i →
      i < l.length ∧ p (l.getD i d) = true := by
  intro l
  induction l with
  | nil => intro i h; simp [findFirstIdx] at h
  | cons x xs ih =>
    intro i h
    by_cases hx : p x
    · simp [findFirstIdx, hx] at h
      subst h
      simpa using hx
    · simp [findFirstIdx, hx] at h
      obtain ⟨j, hj, rfl⟩ := h
      obtain ⟨h1, h2⟩ := ih hj
      exact ⟨by simpa using h1, by simpa using h2⟩

theorem findFirstIdx_eq_none {p : α → Bool} :
    ∀ {l : List α}, (∀ e ∈ l, p e = false) → findFirstIdx p l = none := by
  intro l
  induction l with
  | nil => intro _; rfl
  | cons x xs ih =>
    intro h
    have hx := h x (by simp)
    simp [findFirstIdx, hx]
    exact ih fun e he => h e (by simp [he])

theorem foldl_maxStep_isSome (key : α → Nat) :
    ∀ (l : List α) (acc : Option α), (acc.isSome ∨ l ≠ []) →
      (l.foldl (maxStep key) acc).isSome := by
  intro l
  induction l with
  | nil =>
    intro acc h
    rcases h with h | h
    · simpa using h
    · simp at h
  | cons a l ih =>
    intro acc _
    refine ih (maxStep key acc a) (Or.inl ?_)
    cases acc <;> simp [maxStep]
    split <;> simp

theorem foldl_maxStep_mem (key : α → Nat) :
    ∀ (l : List α) (acc : Option α) (x : α),
      l.foldl (maxStep key) acc = some x → x ∈ l ∨ acc = some x := by
  intro l
  induction l with
  | nil => intro acc x h; exact Or.inr h
  | cons a l ih =>
    intro acc x h
    rcases ih _ _ h with hmem | hacc
    · exact Or.inl (List.mem_cons_of_mem _ hmem)
    · cases acc with
      | none =>
        simp [maxStep] at hacc
        exact Or.inl (by simp [hacc])
      | some y =>
        simp only [maxStep] at hacc
        split at hacc
        · exact Or.inl (by simp_all)
        · exact Or.inr hacc

theorem foldl_maxStep_ge (key : α → Nat) :
    ∀ (l : List α) (acc : Option α) (x : α),
      l.foldl (maxStep key) acc = some x →
        (∀ y ∈ l, key y ≤ key x) ∧ (∀ y, acc = some y → key y ≤ key x) := by
  intro l
  induction l with
  | nil =>
    intro acc x h
    refine ⟨by simp, fun y hy => ?_⟩
    rw [hy] at h
    simp at h
    subst h
    exact Nat.le_refl _
  | cons a l ih =>
    intro acc x h
    obtain ⟨h1, h2⟩ := ih (maxStep key acc a) x h
    have ha : key a ≤ key x := by
      cases acc with
      | none => exact h2 a rfl
      | some y =>
        by_cases hy : key y ≤ key a
        · exact h2 a (by simp [maxStep, hy])
        · exact Nat.le_trans (Nat.le_of_not_le hy) (h2 y (by simp [maxStep, hy]))
    refine ⟨fun y hy => ?_, fun y hy => ?_⟩
    · rcases List.mem_cons.mp hy with rfl | hmem
      · exact ha
      · exact h1 y hmem
    · cases acc with
      | none => simp at hy
      | some z =>
        have hzy : z = y := by simpa using hy
        subst hzy
        by_cases hz : key z ≤ key a
        · exact Nat.le_trans hz ha
        · exact h2 z (by simp [maxStep, hz])

theorem maxByLast_eq_none (key : α → Nat) (l : List α) :
    maxByLast key l = none ↔ l = [] := by
  constructor
  · intro h
    by_contra hne
    have := foldl_maxStep_isSome key l none (Or.inr hne)
    rw [maxByLast] at h
    simp [h] at this
  · rintro rfl; rfl

theorem length_insertAt (a : α) : ∀ (n : Nat) (l : List α),
    (insertAt n a l).length = l.length + 1 := by
  intro n
  induction n with
  | zero => intro l; rfl
  | succ n ih =>
    intro l
    cases l with
    | nil => rfl
    | cons x xs => simp [insertAt, ih]

theorem length_swapRemove (l : List (Nat × Nat)) (pos : Nat) :
    (swapRemove l pos).length = l.length - 1 := by
  simp [swapRemove]

/-! ## Claim C1 -/

/-- C1 (code_bug evidence): the id-validated external entry points complete
without panicking on out-of-range ids (the state is left unchanged), but a
compositor feedback whose `refresh_interval` is zero makes
`predict_next_vsync` divide `elapsed.as_nanos()` by zero, a panic (modelled
by `none`).  So the claim's no-panic guarantee fails on the zero-interval
feedback while the id paths do validate as claimed. -/
theorem claim_C1_external_input_behaviour :
    TripleBufferManager.mark_displayed (TripleBufferManager.new 0) 99 1 =
      TripleBufferManager.new 0 ∧
    TripleBufferManager.release_buffer (TripleBufferManager.new 0) 3 1 =
      TripleBufferManager.new 0 ∧
    PresentationFeedback.predict_next_vsync
      { present_time := 0, refresh_interval := 0, flags := 0 } 5 = none := by
  refine ⟨rfl, rfl, rfl⟩

/-! ## Claim C10 -/

/-- C10: a failed sync-object creation leaves the `GpuFenceManager`
completely unchanged (the previously pending fence survives and the creation
counter is not bumped), and a successful creation is exactly what replaces
the pending fence and bumps the counter. -/
theorem claim_C10_create_fence_failure (m : GpuFenceManager) (f : GpuFence) :
    m.create_fence none = (Except.error (), m) ∧
    (m.create_fence (some f)).2.pending_fence = some f ∧
    (m.create_fence (some f)).2.total_fences_created =
      m.total_fences_created + 1 := by
  refine ⟨rfl, rfl, rfl⟩

/-! ## Claim C6 -/

/-- C6: `wait_for_fence` with no pending fence returns `none` with the whole
state (statistics included) untouched; after any `wait_for_fence` call no
fence is pending; and any nonempty sequence of successful `create_fence`
calls without waiting leaves exactly one fence pending. -/
theorem claim_C6_fence_pending_protocol :
    (∀ (m : GpuFenceManager) (sig : Bool) (t : Nat),
        m.pending_fence = none → m.wait_for_fence sig t = (none, m)) ∧
    (∀ (m : GpuFenceManager) (sig : Bool) (t : Nat),
        ((m.wait_for_fence sig t).2).pending_fence = none) ∧
    (∀ (m : GpuFenceManager) (fs : List GpuFence), fs ≠ [] →
        ((fs.foldl (fun (acc : GpuFenceManager) f =>
            (acc.create_fence (some f)).2) m).pending_fence).isSome) := by
  refine ⟨?_, ?_, ?_⟩
  · intro m sig t h
    simp [GpuFenceManager.wait_for_fence, h]
  · intro m sig t
    cases h : m.pending_fence with
    | none => simp [GpuFenceManager.wait_for_fence, h]
    | some f =>
      cases sig <;> simp [GpuFenceManager.wait_for_fence, h]
  · intro m fs h
    induction fs generalizing m with
    | nil => exact absurd rfl h
    | cons f fs ih =>
      cases fs with
      | nil => simp [GpuFenceManager.create_fence]
      | cons g gs => exact ih _ (by simp)

/-- C6 witness: the theorem at concrete states — an empty manager, one
wait after one creation, and a two-creation sequence. -/
theorem claim_C6_fence_pending_protocol_witness :
    GpuFenceManager.new.wait_for_fence true 5 = (none, GpuFenceManager.new) ∧
    ((((GpuFenceManager.new.create_fence (some ⟨1, 0⟩)).2.wait_for_fence
        false 7).2).pending_fence = none) ∧
    (([(⟨1, 0⟩ : GpuFence), ⟨2, 3⟩].foldl
        (fun (acc : GpuFenceManager) f =>
          (acc.create_fence (some f)).2) GpuFenceManager.new).pending_fence).isSome := by
  refine ⟨claim_C6_fence_pending_protocol.1 _ true 5 rfl,
    claim_C6_fence_pending_protocol.2.1 _ false 7,
    claim_C6_fence_pending_protocol.2.2 _ _ (by simp)⟩

/-! ## Claim C5 -/

/-- C5: `record_feedback` changes the refresh-interval estimate only when a
previous feedback exists, and then sets it to
`0.9 * old_estimate + 0.1 * measured_interval`, where the measured interval
is the (saturating) duration from the previous presentation instant to the
new one; the first feedback recorded leaves the estimate unchanged. -/
theorem claim_C5_record_feedback_ema (m : PresentationManager)
    (fb : PresentationFeedback) :
    (m.last_feedback = none →
      (m.record_feedback fb).estimated_refresh_interval =
        m.estimated_refresh_interval) ∧
    (∀ prev, m.last_feedback = some prev →
      (m.record_feedback fb).estimated_refresh_interval =
        (9 / 10 : ℚ) * m.estimated_refresh_interval +
          (1 / 10 : ℚ) * ((fb.present_time - prev.present_time : Nat) : ℚ)) := by
  constructor
  · intro h
    by_cases hb0 : fb.flags.testBit 0 <;> by_cases hb3 : fb.flags.testBit 3 <;>
      simp [PresentationManager.record_feedback, hb0, hb3, h]
  · intro prev h
    by_cases hb0 : fb.flags.testBit 0 <;> by_cases hb3 : fb.flags.testBit 3 <;>
      simp [PresentationManager.record_feedback, hb0, hb3, h]

/-- C5 witness: at a no-previous-feedback manager the estimate (5 ns) is
unchanged; at a manager whose previous feedback was presented at 40 ns, a
feedback at 100 ns moves the estimate from 5 to
`0.9 * 5 + 0.1 * 60 = 21/2`. -/
theorem claim_C5_record_feedback_ema_witness :
    (PresentationManager.record_feedback
        { last_feedback := none, estimated_refresh_interval := 5
          total_feedbacks := 0, vsync_hits := 0, zero_copy_frames := 0 }
        { present_time := 100, refresh_interval := 16, flags := 0 }).estimated_refresh_interval = 5 ∧
    (PresentationManager.record_feedback
        { last_feedback := some { present_time := 40, refresh_interval := 16, flags := 0 }
          estimated_refresh_interval := 5
          total_feedbacks := 1, vsync_hits := 0, zero_copy_frames := 0 }
        { present_time := 100, refresh_interval := 16, flags := 0 }).estimated_refresh_interval = 21 / 2 := by
  constructor
  · exact (claim_C5_record_feedback_ema
      { last_feedback := none, estimated_refresh_interval := 5
        total_feedbacks := 0, vsync_hits := 0, zero_copy_frames := 0 }
      { present_time := 100, refresh_interval := 16, flags := 0 }).1 rfl
  · have h := (claim_C5_record_feedback_ema
      { last_feedback := some { present_time := 40, refresh_interval := 16, flags := 0 }
        estimated_refresh_interval := 5
        total_feedbacks := 1, vsync_hits := 0, zero_copy_frames := 0 }
      { present_time := 100, refresh_interval := 16, flags := 0 }).2
      { present_time := 40, refresh_interval := 16, flags := 0 } rfl
    rw [h]
    norm_num

/-! ## Claim C9 -/

/-- C9: when feedback exists (and its vsync prediction `v` is defined),
`optimal_render_start(budget)` is `v - budget` when that instant is still in
the future (the code's test `next_vsync > now + budget` is exactly that) and
`v` itself otherwise, so the result never exceeds the predicted vsync; and
`should_render_now(budget)` holds exactly when the current time has reached
`optimal_render_start(budget)` — in particular, with no feedback ever
recorded, `should_render_now 0` is immediately true. -/
theorem claim_C9_optimal_render_start (fb : PresentationFeedback)
    (m : PresentationManager) (budget now v : Nat) (t : ℚ) :
    (fb.predict_next_vsync now = some v →
      fb.optimal_render_start budget now =
        some (if now + budget < v then v - budget else v) ∧
      ∀ w, fb.optimal_render_start budget now = some w → w ≤ v) ∧
    (m.optimal_render_start budget now = some t →
      (m.should_render_now budget now = some true ↔ t ≤ (now : ℚ))) ∧
    (m.last_feedback = none → m.should_render_now 0 now = some true) := by
  refine ⟨?_, ?_, ?_⟩
  · intro h
    constructor
    · simp [PresentationFeedback.optimal_render_start, h]
    · intro w hw
      simp [PresentationFeedback.optimal_render_start, h] at hw
      subst hw
      split <;> omega
  · intro h
    simp [PresentationManager.should_render_now, h]
  · intro h
    simp [PresentationManager.should_render_now,
      PresentationManager.optimal_render_start, h]

/-- C9 witness: feedback presented at 0 with a 16 ns interval, queried at
`now = 100` with a 10 ns budget: the predicted vsync is 112, so rendering
should start at 102; and a fresh no-feedback manager reports
`should_render_now 0` immediately. -/
theorem claim_C9_optimal_render_start_witness :
    PresentationFeedback.optimal_render_start
      { present_time := 0, refresh_interval := 16, flags := 0 } 10 100 =
        some 102 ∧
    PresentationManager.should_render_now
      { last_feedback := none, estimated_refresh_interval := 16666666
        total_feedbacks := 0, vsync_hits := 0, zero_copy_frames := 0 } 0 7 =
      some true := by
  constructor
  · have h := (claim_C9_optimal_render_start
      { present_time := 0, refresh_interval := 16, flags := 0 }
      { last_feedback := none, estimated_refresh_interval := 16666666
        total_feedbacks := 0, vsync_hits := 0, zero_copy_frames := 0 }
      10 100 112 0).1 (by decide)
    rw [h.1]
    norm_num
  · exact (claim_C9_optimal_render_start
      { present_time := 0, refresh_interval := 16, flags := 0 }
      { last_feedback := none, estimated_refresh_interval := 16666666
        total_feedbacks := 0, vsync_hits := 0, zero_copy_frames := 0 }
      0 0 0 0).2.2 rfl

/-! ## Claim C8 -/

/-- C8 counterexample: the claim fails as stated.  With a compositor-supplied
refresh interval of 1 ns and an elapsed time of `2^32` ns, the
`as u32` cast truncates `intervals_passed` to 0, so the prediction is
`present_time + 1 = 1`, which is *not* strictly after `now = 2^32` and is
not the claimed `present_time + refresh_interval * (floor(elapsed/r) + 1)`.
Moreover a manager constructed with `new(2_000_000_000)` has a zero
estimated interval, and its no-feedback prediction equals `now` exactly,
again not strictly in the future. -/
theorem claim_C8_predict_next_vsync_cex :
    PresentationFeedback.predict_next_vsync
      { present_time := 0, refresh_interval := 1, flags := 0 } (2 ^ 32) =
        some 1 ∧
    ¬ (2 ^ 32 < 1) ∧
    (1 : Nat) ≠ 0 + 1 * ((2 ^ 32 - 0) / 1 + 1) ∧
    (PresentationManager.new 2000000000).map
      (fun m => m.predict_next_vsync 7) = some (some ((7 : ℚ))) ∧
    ¬ ((7 : ℚ) < 7) := by
  refine ⟨by decide, by decide, by decide,
    by norm_num [PresentationManager.new, PresentationManager.predict_next_vsync],
    by norm_num⟩

/-- C8 (amended): provided the refresh interval is positive, the interval
count does not overflow the `u32` cast, and the scaled duration fits in
`Duration::MAX`, the feedback-based prediction is exactly
`present_time + refresh_interval * (floor(elapsed / refresh_interval) + 1)`
and is strictly after the call time; the manager defers to the feedback when
one exists, and with no feedback it returns `now + estimated_interval`,
which is strictly in the future whenever the estimate is positive. -/
theorem claim_C8_predict_next_vsync_amended :
    (∀ (fb : PresentationFeedback) (now : Nat),
      0 < fb.refresh_interval →
      (now - fb.present_time) / fb.refresh_interval + 1 < 2 ^ 32 →
      fb.refresh_interval * ((now - fb.present_time) / fb.refresh_interval + 1)
          ≤ durMax →
      fb.predict_next_vsync now =
        some (fb.present_time +
          fb.refresh_interval *
            ((now - fb.present_time) / fb.refresh_interval + 1)) ∧
      now < fb.present_time +
          fb.refresh_interval *
            ((now - fb.present_time) / fb.refresh_interval + 1)) ∧
    (∀ (m : PresentationManager) (fb : PresentationFeedback) (now : Nat),
      m.last_feedback = some fb →
      m.predict_next_vsync now =
        (fb.predict_next_vsync now).map (fun v => (v : ℚ))) ∧
    (∀ (m : PresentationManager) (now : Nat),
      m.last_feedback = none →
      m.predict_next_vsync now =
        some ((now : ℚ) + m.estimated_refresh_interval) ∧
      (0 < m.estimated_refresh_interval →
        (now : ℚ) < (now : ℚ) + m.estimated_refresh_interval)) := by
  refine ⟨?_, ?_, ?_⟩
  · intro fb now hr htrunc hfit
    have hrne : ¬ fb.refresh_interval = 0 := by omega
    have hmod1 :
        (now - fb.present_time) / fb.refresh_interval % 2 ^ 32 =
          (now - fb.present_time) / fb.refresh_interval :=
      Nat.mod_eq_of_lt (by omega)
    have hmod2 :
        ((now - fb.present_time) / fb.refresh_interval + 1) % 2 ^ 32 =
          (now - fb.present_time) / fb.refresh_interval + 1 :=
      Nat.mod_eq_of_lt htrunc
    constructor
    · simp only [PresentationFeedback.predict_next_vsync, if_neg hrne,
        hmod1, hmod2, if_neg (Nat.not_lt.mpr hfit)]
    · rcases Nat.le_total now fb.present_time with hle | hle
      · have : 0 < fb.refresh_interval *
            ((now - fb.present_time) / fb.refresh_interval + 1) :=
          Nat.mul_pos hr (Nat.succ_pos _)
        omega
      · set e := now - fb.present_time with he
        have hdm : fb.refresh_interval * (e / fb.refresh_interval) +
            e % fb.refresh_interval = e :=
          Nat.div_add_mod e fb.refresh_interval
        have hrem : e % fb.refresh_interval < fb.refresh_interval :=
          Nat.mod_lt _ hr
        have hmul : fb.refresh_interval * (e / fb.refresh_interval + 1) =
            fb.refresh_interval * (e / fb.refresh_interval) +
              fb.refresh_interval := by ring
        rw [hmul]
        omega
  · intro m fb now h
    simp [PresentationManager.predict_next_vsync, h]
  · intro m now h
    refine ⟨by simp [PresentationManager.predict_next_vsync, h], fun hpos => ?_⟩
    linarith

/-- C8 witness: a feedback presented at 0 with a 16,666,667 ns interval,
queried at 20,000,000 ns, predicts vsync at 33,333,334 ns, strictly in the
future; a manager with no feedback and a positive estimate predicts
`now + estimate`, strictly in the future. -/
theorem claim_C8_predict_next_vsync_witness :
    PresentationFeedback.predict_next_vsync
      { present_time := 0, refresh_interval := 16666667, flags := 0 }
      20000000 = some 33333334 ∧
    (20000000 : Nat) < 33333334 ∧
    PresentationManager.predict_next_vsync
      { last_feedback := none, estimated_refresh_interval := 16666666
        total_feedbacks := 0, vsync_hits := 0, zero_copy_frames := 0 } 7 =
      some (7 + 16666666 : ℚ) := by
  have h1 := claim_C8_predict_next_vsync_amended.1
    { present_time := 0, refresh_interval := 16666667, flags := 0 }
    20000000 (by decide) (by decide) (by decide)
  have h3 := claim_C8_predict_next_vsync_amended.2.2
    { last_feedback := none, estimated_refresh_interval := 16666666
      total_feedbacks := 0, vsync_hits := 0, zero_copy_frames := 0 }
    7 rfl
  refine ⟨?_, ?_, ?_⟩
  · rw [h1.1]; norm_num
  · have := h1.2; omega
  · rw [h3.1]; norm_num

/-! ## Claim C4 -/

theorem nextPowTwoGo_ge (n : Nat) :
    ∀ (f p : Nat), n ≤ p * 2 ^ f → n ≤ VertexBufferPool.nextPowTwoGo n f p := by
  intro f
  induction f with
  | zero => intro p h; simpa [VertexBufferPool.nextPowTwoGo] using h
  | succ f ih =>
    intro p h
    rw [VertexBufferPool.nextPowTwoGo]
    split
    · assumption
    · refine ih (p * 2) ?_
      calc n ≤ p * 2 ^ (f + 1) := h
        _ = p * 2 * 2 ^ f := by ring

theorem nextPowTwo_ge {n : Nat} (h : n ≤ 2 ^ 63) :
    n ≤ VertexBufferPool.nextPowTwo n := by
  refine nextPowTwoGo_ge n 64 1 ?_
  calc n ≤ 2 ^ 63 := h
    _ ≤ 1 * 2 ^ 64 := by norm_num

theorem nextPowTwoGo_le (n : Nat) (hn : n ≤ 2 ^ 63) :
    ∀ (f k : Nat), 2 ^ k ≤ 2 ^ 63 →
      VertexBufferPool.nextPowTwoGo n f (2 ^ k) ≤ 2 ^ 63 := by
  intro f
  induction f with
  | zero => intro k hk; simpa [VertexBufferPool.nextPowTwoGo] using hk
  | succ f ih =>
    intro k hk
    rw [VertexBufferPool.nextPowTwoGo]
    split
    · exact hk
    · rename_i hnp
      have hklt : 2 ^ k < 2 ^ 63 := by omega
      have hk63 : k < 63 := by
        by_contra hc
        push_neg at hc
        have h2k : (2:Nat) ^ 63 ≤ 2 ^ k := Nat.pow_le_pow_right (by omega) hc
        omega
      have hstep : (2:Nat) ^ k * 2 = 2 ^ (k + 1) := by ring
      rw [hstep]
      exact ih (k + 1) (Nat.pow_le_pow_right (by omega) (by omega))

theorem nextPowTwo_le {n : Nat} (h : n ≤ 2 ^ 63) :
    VertexBufferPool.nextPowTwo n ≤ 2 ^ 63 := by
  have := nextPowTwoGo_le n h 64 0 (by norm_num)
  simpa [VertexBufferPool.nextPowTwo] using this

theorem nextPowTwoU64_eq {n : Nat} (h : n ≤ 2 ^ 63) :
    VertexBufferPool.nextPowTwoU64 n = VertexBufferPool.nextPowTwo n := by
  have h1 := nextPowTwo_le h
  have h64 : (2:Nat) ^ 63 < 2 ^ 64 := by norm_num
  exact Nat.mod_eq_of_lt (by omega)

/-- C4 counterexample: the claim fails as stated.  At
`min_quads = 2^63 + 1` (with an empty pool) `next_power_of_two` overflows
`usize` — in a release build it wraps to 0, as its documentation states — so
the successful acquire allocates capacity `max(0, 32) = 32`, which is far
below the request and differs from the mathematical
`max(32, next_power_of_two(min_quads))`. -/
theorem claim_C4_acquire_capacity_cex :
    (VertexBufferPool.acquire VertexBufferPool.new (2 ^ 63 + 1) true).1 =
      Except.ok (32, 0) ∧
    ¬ (2 ^ 63 + 1 ≤ 32) ∧
    (32 : Nat) ≠ Nat.max 32 (VertexBufferPool.nextPowTwo (2 ^ 63 + 1)) := by
  refine ⟨rfl, by norm_num, by decide⟩

/-- C4 (amended): for every `min_quads ≤ 2^63` (no `usize` overflow in
`next_power_of_two`), a successful `acquire(min_quads)` returns capacity at
least `min_quads`; when no pooled entry has sufficient capacity the
allocated capacity is exactly `max(next_power_of_two(min_quads), 32)`; and
with only a 128-capacity buffer pooled, `acquire(200)` allocates 256 rather
than reusing. -/
theorem claim_C4_acquire_capacity_amended (p : VertexBufferPool)
    (min_quads : Nat) (allocOk : Bool) (cap buf : Nat)
    (h : min_quads ≤ 2 ^ 63) :
    ((p.acquire min_quads allocOk).1 = Except.ok (cap, buf) →
      min_quads ≤ cap) ∧
    ((∀ e ∈ p.available, e.1 < min_quads) →
      (p.acquire min_quads true).1 =
        Except.ok (Nat.max (VertexBufferPool.nextPowTwo min_quads) 32,
          p.allocations)) ∧
    ((VertexBufferPool.acquire
        { available := [(128, 0)], allocations := 0, reuses := 0 }
        200 true).1 = Except.ok (256, 0)) := by
  refine ⟨?_, ?_, rfl⟩
  · intro hok
    rcases hf : findFirstIdx (fun e => min_quads ≤ e.1) p.available with _ | pos
    · cases allocOk with
      | false => simp [VertexBufferPool.acquire, hf] at hok
      | true =>
        simp [VertexBufferPool.acquire, hf] at hok
        obtain ⟨hcap, _⟩ := hok
        rw [← hcap, nextPowTwoU64_eq h]
        exact Nat.le_trans (nextPowTwo_ge h) (Nat.le_max_left _ _)
    · have hacq : (p.acquire min_quads allocOk).1 =
          Except.ok (p.available.getD pos (0, 0)) := by
        simp only [VertexBufferPool.acquire, hf]
      rw [hacq] at hok
      obtain ⟨h1, h2⟩ := findFirstIdx_some (d := (0, 0)) hf
      have hget : p.available.getD pos (0, 0) = (cap, buf) :=
        Except.ok.inj hok
      rw [hget] at h2
      simpa using h2
  · intro hall
    have hf : findFirstIdx (fun e => min_quads ≤ e.1) p.available = none := by
      refine findFirstIdx_eq_none fun e he => ?_
      have hlt := hall e he
      simp only [decide_eq_false_iff_not]
      omega
    simp only [VertexBufferPool.acquire, hf, if_true]
    rw [nextPowTwoU64_eq h]

/-- C4 witness: on an empty pool, `acquire 200` succeeds with capacity
`max(next_power_of_two 200, 32) = 256 ≥ 200`. -/
theorem claim_C4_acquire_capacity_witness :
    (VertexBufferPool.acquire VertexBufferPool.new 200 true).1 =
      Except.ok (Nat.max (VertexBufferPool.nextPowTwo 200) 32, 0) ∧
    (200 : Nat) ≤ 256 := by
  have h := claim_C4_acquire_capacity_amended VertexBufferPool.new 200 true
    256 0 (by norm_num)
  have hx := h.2.1 (by simp [VertexBufferPool.new])
  refine ⟨hx, ?_⟩
  refine h.1 ?_
  rw [hx]
  rfl

/-! ## Claim C7 -/

/-- C7: the pool never holds more than 8 buffers — every reachable pool
state reports a pooled count of at most 8 through `stats`, and a `release`
on a pool already holding 8 entries drops the buffer, leaving the pool
unchanged (so still exactly 8 pooled). -/
theorem claim_C7_pool_cap (p : VertexBufferPool) (c b : Nat) :
    (PoolReach p → p.stats.2.2 ≤ 8) ∧
    (p.available.length = 8 → p.release c b = p) := by
  constructor
  · intro h
    show p.available.length ≤ 8
    induction h with
    | new => simp [VertexBufferPool.new]
    | acquire q mq ok _ ih =>
      rcases hf : findFirstIdx (fun e => mq ≤ e.1) q.available with _ | pos
      · cases ok <;> simp [VertexBufferPool.acquire, hf] <;> omega
      · have hlen : (swapRemove q.available pos).length =
            q.available.length - 1 := length_swapRemove _ _
        simp [VertexBufferPool.acquire, hf, hlen]
        omega
    | release q c1 b1 _ ih =>
      by_cases hlt : q.available.length < 8
      · simp [VertexBufferPool.release, hlt, length_insertAt]
        omega
      · simp [VertexBufferPool.release, hlt]
        omega
    | clear q _ ih => simp [VertexBufferPool.clear]
  · intro h
    simp [VertexBufferPool.release, h]

/-- C7 witness: the empty pool is reachable with 0 ≤ 8 pooled, and a
release on a concrete 8-entry pool leaves it unchanged. -/
theorem claim_C7_pool_cap_witness :
    VertexBufferPool.new.stats.2.2 ≤ 8 ∧
    VertexBufferPool.release
      { available := [(8, 0), (7, 1), (6, 2), (5, 3), (4, 4), (3, 5), (2, 6), (1, 7)]
        allocations := 0, reuses := 0 } 5 9 =
      { available := [(8, 0), (7, 1), (6, 2), (5, 3), (4, 4), (3, 5), (2, 6), (1, 7)]
        allocations := 0, reuses := 0 } := by
  refine ⟨(claim_C7_pool_cap VertexBufferPool.new 0 0).1 PoolReach.new, ?_⟩
  exact (claim_C7_pool_cap _ 5 9).2 rfl

/-! ## Claim C2 -/

theorem setSlot_starvation_count (m : TripleBufferManager) (i : Nat)
    (b : BufferMetadata) :
    (m.setSlot i b).buffer_starvation_count = m.buffer_starvation_count := by
  unfold TripleBufferManager.setSlot
  split_ifs <;> rfl

theorem oldestQueuedIdx_none_iff (x : TripleBufferManager) (now : Nat) :
    TripleBufferManager.oldestQueuedIdx x now = none ↔
      x.buffer0.state ≠ .Queued ∧ x.buffer1.state ≠ .Queued ∧
        x.buffer2.state ≠ .Queued := by
  unfold TripleBufferManager.oldestQueuedIdx
  rw [Option.map_eq_none', maxByLast_eq_none]
  constructor
  · intro h
    refine ⟨?_, ?_, ?_⟩ <;> intro hq
    · have : ((0 : Nat), x.buffer0) ∈
          ([((0 : Nat), x.buffer0), (1, x.buffer1), (2, x.buffer2)]).filter
            (fun p => p.2.state = BufferState.Queued) :=
        List.mem_filter.mpr ⟨by simp, by simp [hq]⟩
      rw [h] at this
      simp at this
    · have : ((1 : Nat), x.buffer1) ∈
          ([((0 : Nat), x.buffer0), (1, x.buffer1), (2, x.buffer2)]).filter
            (fun p => p.2.state = BufferState.Queued) :=
        List.mem_filter.mpr ⟨by simp, by simp [hq]⟩
      rw [h] at this
      simp at this
    · have : ((2 : Nat), x.buffer2) ∈
          ([((0 : Nat), x.buffer0), (1, x.buffer1), (2, x.buffer2)]).filter
            (fun p => p.2.state = BufferState.Queued) :=
        List.mem_filter.mpr ⟨by simp, by simp [hq]⟩
      rw [h] at this
      simp at this
  · rintro ⟨hq0, hq1, hq2⟩
    simp [List.filter, hq0, hq1, hq2]

theorem oldestQueuedIdx_some (x : TripleBufferManager) (now i : Nat)
    (h : TripleBufferManager.oldestQueuedIdx x now = some i) :
    i < 3 ∧ (x.getSlot i).state = .Queued ∧
      ∀ k, k < 3 → (x.getSlot k).state = .Queued →
        BufferMetadata.timeInState now (x.getSlot k) ≤
          BufferMetadata.timeInState now (x.getSlot i) := by
  unfold TripleBufferManager.oldestQueuedIdx at h
  rw [Option.map_eq_some'] at h
  obtain ⟨pr, hpr, hpri⟩ := h
  have hmem : pr ∈ ([((0 : Nat), x.buffer0), (1, x.buffer1), (2, x.buffer2)]).filter
      (fun p => p.2.state = BufferState.Queued) := by
    rcases foldl_maxStep_mem _ _ _ _ hpr with hm | hm
    · exact hm
    · simp at hm
  have hge := (foldl_maxStep_ge _ _ _ _ hpr).1
  obtain ⟨hlit, hqpr⟩ := List.mem_filter.mp hmem
  have hqpr' : pr.2.state = BufferState.Queued := by simpa using hqpr
  have hkey : ∀ k, k < 3 → (x.getSlot k).state = .Queued →
      BufferMetadata.timeInState now (x.getSlot k) ≤
        BufferMetadata.timeInState now pr.2 := by
    intro k hk hq
    interval_cases k
    · exact hge (0, x.buffer0)
        (List.mem_filter.mpr ⟨by simp, by simpa [TripleBufferManager.getSlot] using hq⟩)
    · exact hge (1, x.buffer1)
        (List.mem_filter.mpr ⟨by simp, by simpa [TripleBufferManager.getSlot] using hq⟩)
    · exact hge (2, x.buffer2)
        (List.mem_filter.mpr ⟨by simp, by simpa [TripleBufferManager.getSlot] using hq⟩)
  rcases (by simpa using hlit :
      pr = ((0 : Nat), x.buffer0) ∨ pr = (1, x.buffer1) ∨ pr = (2, x.buffer2)) with
    rfl | rfl | rfl
  · subst hpri
    exact ⟨by omega, by simpa [TripleBufferManager.getSlot] using hqpr',
      fun k hk hq => hkey k hk hq⟩
  · subst hpri
    exact ⟨by omega, by simpa [TripleBufferManager.getSlot] using hqpr',
      fun k hk hq => hkey k hk hq⟩
  · subst hpri
    exact ⟨by omega, by simpa [TripleBufferManager.getSlot] using hqpr',
      fun k hk hq => hkey k hk hq⟩

/-- C2 counterexample: the claim fails as stated.  From a fresh manager,
three `acquire_buffer` calls leave all three slots `Rendering`, so the 4th
call finds no `Available` *and* no `Queued` slot: it returns `none` — not
the claimed starvation-fallback `some` — while the starvation counter does
increment to 1.  (The module's own `test_buffer_acquisition` test asserts
`is_some()` here, so code and test disagree.) -/
theorem claim_C2_acquire_fourth_cex :
    (TripleBufferManager.acquire_buffer
      (TripleBufferManager.acquire_buffer
        (TripleBufferManager.acquire_buffer
          (TripleBufferManager.acquire_buffer
            (TripleBufferManager.new 0) 1).2 2).2 3).2 4).1 = none ∧
    (TripleBufferManager.acquire_buffer
      (TripleBufferManager.acquire_buffer
        (TripleBufferManager.acquire_buffer
          (TripleBufferManager.acquire_buffer
            (TripleBufferManager.new 0) 1).2 2).2 3).2
        4).2.buffer_starvation_count = 1 := by
  refine ⟨by decide, by decide⟩

/-- C2 (amended): with no slot `Available`, `acquire_buffer` increments the
starvation counter by exactly one; it returns `none` exactly when no slot is
`Queued` (in particular the 4th call after three acquires with no
intervening queue/release returns `none`, all slots being `Rendering`); and
whenever it returns a slot, that slot was `Queued` with the longest time in
state among all `Queued` slots. -/
theorem claim_C2_acquire_starvation_amended (m : TripleBufferManager)
    (now : Nat)
    (h0 : m.buffer0.state ≠ .Available) (h1 : m.buffer1.state ≠ .Available)
    (h2 : m.buffer2.state ≠ .Available) :
    ((m.acquire_buffer now).2.buffer_starvation_count =
      m.buffer_starvation_count + 1) ∧
    ((m.acquire_buffer now).1 = none ↔
      m.buffer0.state ≠ .Queued ∧ m.buffer1.state ≠ .Queued ∧
        m.buffer2.state ≠ .Queued) ∧
    (∀ j, (m.acquire_buffer now).1 = some j →
      j < 3 ∧ (m.getSlot j).state = .Queued ∧
        ∀ k, k < 3 → (m.getSlot k).state = .Queued →
          BufferMetadata.timeInState now (m.getSlot k) ≤
            BufferMetadata.timeInState now (m.getSlot j)) := by
  have hacq : m.acquire_buffer now =
      (match TripleBufferManager.oldestQueuedIdx
          { m with buffer_starvation_count := m.buffer_starvation_count + 1 }
          now with
        | some i =>
            (some i,
              { TripleBufferManager.setSlot
                  { m with buffer_starvation_count :=
                      m.buffer_starvation_count + 1 } i
                  ((TripleBufferManager.getSlot
                      { m with buffer_starvation_count :=
                          m.buffer_starvation_count + 1 } i).transitionTo
                    .Rendering now) with
                current_buffer := i })
        | none =>
            (none,
              { m with buffer_starvation_count :=
                  m.buffer_starvation_count + 1 })) := by
    rw [TripleBufferManager.acquire_buffer, if_neg h0, if_neg h1, if_neg h2]
  rcases hq : TripleBufferManager.oldestQueuedIdx
      { m with buffer_starvation_count := m.buffer_starvation_count + 1 }
      now with _ | i
  · have hres : m.acquire_buffer now =
        (none, { m with buffer_starvation_count :=
            m.buffer_starvation_count + 1 }) := by
      rw [hacq, hq]
    rw [hres]
    refine ⟨rfl, ?_, ?_⟩
    · exact iff_of_true rfl ((oldestQueuedIdx_none_iff _ now).mp hq)
    · intro j hj
      exact absurd hj (by simp)
  · have hfst : (m.acquire_buffer now).1 = some i := by rw [hacq, hq]
    have hsnd : (m.acquire_buffer now).2.buffer_starvation_count =
        m.buffer_starvation_count + 1 := by
      rw [hacq, hq]
      exact setSlot_starvation_count _ i _
    refine ⟨hsnd, ?_, ?_⟩
    · rw [hfst]
      constructor
      · intro hc
        exact absurd hc (by simp)
      · intro hs
        have hnone := (oldestQueuedIdx_none_iff
          { m with buffer_starvation_count := m.buffer_starvation_count + 1 }
          now).mpr hs
        rw [hq] at hnone
        exact absurd hnone (by simp)
    · intro j hj
      rw [hfst] at hj
      have hij : i = j := Option.some.inj hj
      subst hij
      exact oldestQueuedIdx_some _ now i hq

/-- C2 witness: from a fresh manager three acquires leave every slot
`Rendering`; applying the amended theorem to the resulting state shows the
4th call returns `none` while the starvation counter becomes 1. -/
theorem claim_C2_acquire_starvation_witness :
    (TripleBufferManager.acquire_buffer
      (TripleBufferManager.acquire_buffer
        (TripleBufferManager.acquire_buffer
          (TripleBufferManager.acquire_buffer
            (TripleBufferManager.new 0) 1).2 2).2 3).2 4).1 = none ∧
    (TripleBufferManager.acquire_buffer
      (TripleBufferManager.acquire_buffer
        (TripleBufferManager.acquire_buffer
          (TripleBufferManager.acquire_buffer
            (TripleBufferManager.new 0) 1).2 2).2 3).2
        4).2.buffer_starvation_count =
      (TripleBufferManager.acquire_buffer
        (TripleBufferManager.acquire_buffer
          (TripleBufferManager.acquire_buffer
            (TripleBufferManager.new 0) 1).2 2).2
          3).2.buffer_starvation_count + 1 := by
  have h := claim_C2_acquire_starvation_amended
    (TripleBufferManager.acquire_buffer
      (TripleBufferManager.acquire_buffer
        (TripleBufferManager.acquire_buffer
          (TripleBufferManager.new 0) 1).2 2).2 3).2 4
    (by decide) (by decide) (by decide)
  exact ⟨h.2.1.mpr (by decide), h.1⟩

/-! ## Claim C3 -/

theorem ppLoop_eq (l : List (Nat × Nat)) (pred : Nat × Nat → Bool) (k : Nat)
    (hchar : ∀ i, i < l.length → (pred (l.getD i (0, 0)) = true ↔ i < k)) :
    ∀ (n lo hi : Nat), hi - lo ≤ n → lo ≤ k → k ≤ hi → hi ≤ l.length →
      ppLoop l pred lo hi = k := by
  intro n
  induction n with
  | zero =>
    intro lo hi hn hlo hk hhi
    have hnl : ¬ lo < hi := by omega
    rw [ppLoop, dif_neg hnl]
    omega
  | succ n ih =>
    intro lo hi hn hlo hk hhi
    by_cases hlh : lo < hi
    · have hmidlo : lo ≤ (lo + hi) / 2 := by
        rw [Nat.le_div_iff_mul_le (by omega)]; omega
      have hmidhi : (lo + hi) / 2 < hi := by
        rw [Nat.div_lt_iff_lt_mul (by omega)]; omega
      rw [ppLoop, dif_pos hlh]
      by_cases hp : pred (l.getD ((lo + hi) / 2) (0, 0)) = true
      · rw [if_pos hp]
        have hmidk : (lo + hi) / 2 < k := (hchar _ (by omega)).mp hp
        exact ih ((lo + hi) / 2 + 1) hi (by omega) (by omega) hk hhi
      · rw [if_neg hp]
        have hmidk : ¬ ((lo + hi) / 2 < k) := fun hc =>
          hp ((hchar _ (by omega)).mpr hc)
        exact ih lo ((lo + hi) / 2) (by omega) hlo (by omega) (by omega)
    · rw [ppLoop, dif_neg hlh]
      omega

theorem descending_dropWhile (c : Nat) :
    ∀ (l : List (Nat × Nat)), descending l →
      ∀ b ∈ l.dropWhile (fun e => decide (c ≤ e.1)),
        decide (c ≤ b.1) = false := by
  intro l
  induction l with
  | nil => intro _ b hb; simp at hb
  | cons x xs ih =>
    intro hl b hb
    obtain ⟨hx, hxs⟩ := List.pairwise_cons.mp hl
    rw [List.dropWhile_cons] at hb
    by_cases hcx : c ≤ x.1
    · rw [if_pos (by simpa using hcx)] at hb
      exact ih hxs b hb
    · rw [if_neg (by simpa using hcx)] at hb
      rcases List.mem_cons.mp hb with rfl | hmem
      · simpa using hcx
      · have := hx b hmem
        simp only [decide_eq_false_iff_not]
        omega

theorem descending_takeWhile_char (c : Nat) (l : List (Nat × Nat))
    (hl : descending l) :
    ∀ i, i < l.length →
      ((fun e : Nat × Nat => decide (c ≤ e.1)) (l.getD i (0, 0)) = true ↔
        i < (l.takeWhile (fun e : Nat × Nat => decide (c ≤ e.1))).length) := by
  intro i hi
  set pred := fun e : Nat × Nat => decide (c ≤ e.1) with hpred
  set k := (l.takeWhile pred).length with hk
  have htake : l.take k = l.takeWhile pred :=
    (List.prefix_iff_eq_take.mp (List.takeWhile_prefix pred)).symm
  have hdrop : l.drop k = l.dropWhile pred := by
    conv_lhs => rw [← List.takeWhile_append_dropWhile pred l]
    exact List.drop_left _ _
  rw [List.getD_eq_getElem l (0, 0) hi]
  constructor
  · intro hp
    by_contra hik
    push_neg at hik
    have hjlt : i - k < (l.drop k).length := by
      rw [List.length_drop]
      omega
    have hget : (l.drop k)[i - k] = l[i] := by
      rw [List.getElem_drop]
      congr 1
      omega
    have hmem : l[i] ∈ l.dropWhile pred := by
      rw [← hdrop, ← hget]
      exact List.getElem_mem _
    have hfalse := descending_dropWhile c l hl _ hmem
    have hp2 : decide (c ≤ l[i].1) = true := hp
    rw [hfalse] at hp2
    exact Bool.noConfusion hp2
  · intro hik
    have hilt : i < (l.take k).length := by
      rw [List.length_take]
      have hkle : k ≤ l.length :=
        List.IsPrefix.length_le (List.takeWhile_prefix pred)
      omega
    have hget : (l.take k)[i] = l[i] := List.getElem_take l
    have hmem : l[i] ∈ l.takeWhile pred := by
      rw [← htake, ← hget]
      exact List.getElem_mem _
    exact List.mem_takeWhile_imp hmem

theorem insertAt_eq_append (a : α) :
    ∀ (n : Nat) (l : List α), n ≤ l.length →
      insertAt n a l = l.take n ++ a :: l.drop n := by
  intro n
  induction n with
  | zero => intro l _; simp [insertAt]
  | succ n ih =>
    intro l hn
    cases l with
    | nil => simp at hn
    | cons x xs =>
      simp only [insertAt, List.take_succ_cons, List.drop_succ_cons,
        List.cons_append, List.cons.injEq, true_and]
      exact ih xs (by simpa using hn)

theorem descending_insert (l : List (Nat × Nat)) (c buf pos : Nat)
    (hl : descending l) (hpos : pos ≤ l.length)
    (hA : ∀ a ∈ l.take pos, c ≤ a.1) (hB : ∀ b ∈ l.drop pos, b.1 ≤ c) :
    descending (insertAt pos (c, buf) l) := by
  rw [insertAt_eq_append _ _ _ hpos]
  unfold descending at *
  rw [List.pairwise_append]
  refine ⟨hl.sublist (List.take_sublist _ _), ?_, ?_⟩
  · rw [List.pairwise_cons]
    exact ⟨fun b hb => hB b hb, hl.sublist (List.drop_sublist _ _)⟩
  · intro a ha b hb
    rcases List.mem_cons.mp hb with rfl | hmem
    · exact hA a ha
    · have hcross := (List.pairwise_append.mp
        ((List.take_append_drop pos l).symm ▸ hl)).2.2
      exact hcross a ha b hmem

theorem release_preserves_descending (p : VertexBufferPool) (c buf : Nat)
    (hp : descending p.available) :
    descending ((p.release c buf).available) := by
  unfold VertexBufferPool.release
  split_ifs with hlen
  · have hchar := descending_takeWhile_char c p.available hp
    have hkle : (p.available.takeWhile
        (fun e : Nat × Nat => decide (c ≤ e.1))).length ≤ p.available.length :=
      List.IsPrefix.length_le (List.takeWhile_prefix _)
    have hpp : partitionPoint p.available (fun e => c ≤ e.1) =
        (p.available.takeWhile
          (fun e : Nat × Nat => decide (c ≤ e.1))).length := by
      unfold partitionPoint
      exact ppLoop_eq p.available _ _ hchar p.available.length 0
        p.available.length (by omega) (by omega) hkle (by omega)
    show descending (insertAt (partitionPoint p.available fun e => c ≤ e.1)
      (c, buf) p.available)
    rw [hpp]
    set k := (p.available.takeWhile
      (fun e : Nat × Nat => decide (c ≤ e.1))).length with hkdef
    have htake : p.available.take k =
        p.available.takeWhile (fun e : Nat × Nat => decide (c ≤ e.1)) :=
      (List.prefix_iff_eq_take.mp (List.takeWhile_prefix _)).symm
    have hdrop : p.available.drop k =
        p.available.dropWhile (fun e : Nat × Nat => decide (c ≤ e.1)) := by
      conv_lhs => rw [← List.takeWhile_append_dropWhile
        (fun e : Nat × Nat => decide (c ≤ e.1)) p.available]
      exact List.drop_left _ _
    refine descending_insert p.available c buf k hp hkle ?_ ?_
    · intro a ha
      rw [htake] at ha
      simpa using List.mem_takeWhile_imp ha
    · intro b hb
      rw [hdrop] at hb
      have := descending_dropWhile c p.available hp b hb
      simp only [decide_eq_false_iff_not] at this
      omega
  · exact hp

/-- C3 counterexample: the claim fails as stated.  On the descending pool
`[(64,_), (32,_), (16,_)]`, `acquire(33)` hits the first entry (64) and
removes it by `swap_remove`, which moves the *last* entry (16) into its
place: the remaining pool is `[(16,_), (32,_)]`, no longer sorted by
descending capacity. -/
theorem claim_C3_pool_sorted_cex :
    descending [(64, 0), (32, 1), (16, 2)] ∧
    (VertexBufferPool.acquire
      { available := [(64, 0), (32, 1), (16, 2)], allocations := 0, reuses := 0 }
      33 true).2.available = [(16, 2), (32, 1)] ∧
    ¬ descending [(16, 2), (32, 1)] := by
  refine ⟨by decide, rfl, by decide⟩

/-- C3 (amended): the descending-capacity order holds after `new()` and
`clear()`, and every `release()` from a sorted pool preserves it (the
`partition_point` insertion lands exactly on the boundary); however,
`acquire()` removes pooled entries by `swap_remove` and can leave the
remaining entries unsorted, as the counterexample shows. -/
theorem claim_C3_pool_sorted_amended (p : VertexBufferPool) (c buf : Nat) :
    descending (VertexBufferPool.new).available ∧
    descending (p.clear).available ∧
    (descending p.available → descending ((p.release c buf).available)) := by
  refine ⟨by simp [VertexBufferPool.new, descending],
    by simp [VertexBufferPool.clear, descending], ?_⟩
  exact release_preserves_descending p c buf

/-- C3 witness: releasing capacity 32 into the sorted pool
`[(64,_), (16,_)]` keeps the pool sorted, and the fresh pool is sorted. -/
theorem claim_C3_pool_sorted_amended_witness :
    descending ((VertexBufferPool.release
      { available := [(64, 0), (16, 1)], allocations := 0, reuses := 0 }
      32 9).available) ∧
    descending (VertexBufferPool.new).available := by
  refine ⟨(claim_C3_pool_sorted_amended
    { available := [(64, 0), (16, 1)], allocations := 0, reuses := 0 }
    32 9).2.2 (by decide), (claim_C3_pool_sorted_amended
      VertexBufferPool.new 0 0).1⟩
